import Mathlib

/-!
Shallow embedding of the `disk-drive` copy engine (src/lib.rs).

Paths model Rust `PathBuf`: an absoluteness flag plus a list of plain
component names.  `FsPath.join` follows Rust `Path::join`: joining an
absolute path onto any base yields the absolute path itself.

The destination backend is modelled as an association list from paths to
entries (file with byte content and mode/uid/gid, directory, symlink,
or other).  The source backend is a second association list whose file
entries carry content and metadata.  Backend primitives (`metadata`,
`open`, `create_dir_all`, `chown`, `set_permissions`, `symlink`,
`read_link`) are external collaborators of the engine; they are modelled
after a permissive in-memory backend so that every branch the engine's
own code distinguishes (destination is a directory / a file / a symlink)
is reachable exactly as written: `metadata` reports the entry kind at
the path without following links, `open` on an existing entry succeeds,
and writing through an open handle affects only regular-file entries —
a handle on a directory has no byte stream, so writing to it fails.

Fallible operations return `Outcome`, which distinguishes a Rust `Err`
propagated with `?` from a panic (`Option::unwrap` on `None`).
-/

namespace DiskDrive

/-- A path: `absolute` models a leading `/`, `components` the name parts. -/
structure FsPath where
  absolute : Bool
  components : List String
deriving DecidableEq, Repr

/-- The filesystem root `/`. -/
def rootPath : FsPath := ⟨true, []⟩

/-- Rust `Path::join`: an absolute argument replaces the base entirely. -/
def FsPath.join (base p : FsPath) : FsPath :=
  if p.absolute then p else ⟨base.absolute, base.components ++ p.components⟩

/-- Rust `Path::file_name`: the last component; `none` for the root. -/
def FsPath.fileName (p : FsPath) : Option String :=
  p.components.getLast?

/-- Rust `Path::parent`: drop the last component; `none` for the root. -/
def FsPath.parent (p : FsPath) : Option FsPath :=
  match p.components with
  | [] => none
  | _ :: _ => some ⟨p.absolute, p.components.dropLast⟩

/-- Scope resolution as performed by the four public copy operations
together with `do_copy`: an absent scope becomes `/` (`unwrap_or_else`,
lib.rs:114-115), a present scope not starting with `/` is prefixed with
it (`PathBuf::from("/").join(scope)`, lib.rs:65-69 etc.), and an
already-rooted scope is passed through unchanged. -/
def resolveScope : Option FsPath → FsPath
  | none => rootPath
  | some p => if p.absolute then p else ⟨true, p.components⟩

/-- A destination-backend entry. -/
inductive Entry where
  | file (content : List Nat) (mode uid gid : Nat)
  | dir (mode uid gid : Nat)
  | symlink (target : String)
  | other (mode uid gid : Nat)
deriving DecidableEq, Repr

/-- Destination filesystem state: path-to-entry association list. -/
abbrev Fs := List (FsPath × Entry)

/-- A source-backend entry, as the traversal classifier sees it:
`read_link` succeeds exactly on `symlink`; otherwise `metadata` reports
dir, file, or some unsupported kind (device, socket, fifo, ...). -/
inductive SrcEntry where
  | file (content : List Nat) (mode uid gid : Nat)
  | dir (mode uid gid : Nat)
  | symlink (target : String)
  | otherKind (mode uid gid : Nat)
deriving DecidableEq, Repr

/-- Source filesystem state. -/
abbrev SrcFs := List (FsPath × SrcEntry)

/-- Look a path up in the destination state. -/
def lookupFs : Fs → FsPath → Option Entry
  | [], _ => none
  | (q, e) :: rest, p => if q = p then some e else lookupFs rest p

/-- Bind a path in the destination state, replacing in place. -/
def insertFs : Fs → FsPath → Entry → Fs
  | [], p, e => [(p, e)]
  | (q, e') :: rest, p, e =>
    if q = p then (q, e) :: rest else (q, e') :: insertFs rest p e

/-- Look a path up in the source state. -/
def lookupSrc : SrcFs → FsPath → Option SrcEntry
  | [], _ => none
  | (q, e) :: rest, p => if q = p then some e else lookupSrc rest p

/-- Result of a fallible engine step: Rust `Ok`, `Err` (propagated by
`?`) or a panic (e.g. `Option::unwrap` on `None`). -/
inductive Outcome (α : Type) where
  | ok : α → Outcome α
  | error : String → Outcome α
  | panicked : String → Outcome α
deriving Repr, DecidableEq

/-- Sequencing of fallible steps (Rust `?`). -/
def Outcome.bind {α β : Type} : Outcome α → (α → Outcome β) → Outcome β
  | .ok a, f => f a
  | .error e, _ => .error e
  | .panicked m, _ => .panicked m

/-- Writing the full source byte stream through a handle opened with
read+write on `p` (`tokio::io::copy` from position 0, no truncation):
on a regular file the bytes overwrite the front of the old content and
any longer old tail survives; a handle on any other entry kind has no
byte stream, so the write fails. -/
def writeToHandle (fs : Fs) (p : FsPath) (bytes : List Nat) : Outcome Fs :=
  match lookupFs fs p with
  | some (.file old m u g) =>
      .ok (insertFs fs p (.file (bytes ++ old.drop bytes.length) m u g))
  | _ => .error "write: handle has no byte stream"

/-- Backend `chown`: set uid/gid of the entry at `p`. -/
def chownFs (fs : Fs) (p : FsPath) (uid gid : Nat) : Outcome Fs :=
  match lookupFs fs p with
  | some (.file c m _ _) => .ok (insertFs fs p (.file c m uid gid))
  | some (.dir m _ _) => .ok (insertFs fs p (.dir m uid gid))
  | some (.other m _ _) => .ok (insertFs fs p (.other m uid gid))
  | some (.symlink _) => .error "chown: cannot chown a symlink entry"
  | none => .error "chown: no such path"

/-- Backend `set_permissions`: set the mode of the entry at `p`. -/
def setPermissionsFs (fs : Fs) (p : FsPath) (mode : Nat) : Outcome Fs :=
  match lookupFs fs p with
  | some (.file c _ u g) => .ok (insertFs fs p (.file c mode u g))
  | some (.dir _ u g) => .ok (insertFs fs p (.dir mode u g))
  | some (.other _ u g) => .ok (insertFs fs p (.other mode u g))
  | some (.symlink _) => .error "set permissions: symlink entry"
  | none => .error "set permissions: no such path"

/-- All nonempty prefixes of a component list, shortest first. -/
def prefixPathsAux (abs : Bool) : List String → List FsPath
  | [] => []
  | c :: rest =>
      ⟨abs, [c]⟩ :: (prefixPathsAux abs rest).map
        (fun q => ⟨q.absolute, c :: q.components⟩)

/-- The chain of directories `create_dir_all p` must ensure: every
nonempty prefix of `p`, ending with `p` itself (the root needs no
creation). -/
def dirChain (p : FsPath) : List FsPath :=
  prefixPathsAux p.absolute p.components

/-- Process the directory chain: create each missing link as a fresh
directory, accept existing directories, fail on any other entry kind. -/
def createDirsGo : Fs → List FsPath → Outcome Fs
  | fs, [] => .ok fs
  | fs, q :: qs =>
    match lookupFs fs q with
    | none => createDirsGo (insertFs fs q (.dir 493 0 0)) qs
    | some (.dir _ _ _) => createDirsGo fs qs
    | some _ => .error "create dirs: path exists and is not a directory"

/-- Backend `create_dir_all`: idempotent creation of `p` and all of its
missing ancestors. -/
def createDirAll (fs : Fs) (p : FsPath) : Outcome Fs :=
  createDirsGo fs (dirChain p)

/-- Observable log events emitted by the engine. -/
inductive Event where
  | warnedSymlinkDest (p : FsPath)
  | errorLogged (p : FsPath)
deriving DecidableEq, Repr

/-- `create_dir_all` on the parent of `dest_path`, as done at
lib.rs:168-170 and again at lib.rs:177-179 (a path with no parent,
i.e. the root, skips the call). -/
def ensureParent (fs : Fs) (p : FsPath) : Outcome Fs :=
  match p.parent with
  | some par => createDirAll fs par
  | none => .ok fs

/-- `copy_file_to_memfs` (lib.rs:159-285).  `src` is the opened source
file with its metadata snapshot; `srcPath` the discovered source path;
`destScope` the resolved destination scope.  The function computes
`dest_path = destScope.join(srcPath)`, ensures its parent directory
chain (twice, as the source does), then branches on the destination's
current state:
  * no entry: create-new exclusively, copy bytes, chown, set mode;
  * a directory: take the source base name (`file_name().unwrap()` —
    panics when the source path has no final component), join it under
    the destination path, but stream the bytes into the handle that was
    opened on the directory itself, then chown / set mode on the joined
    path;
  * a regular file: stream the bytes into it (no truncation), then
    chown / set mode on the destination path;
  * a symlink: log a warning and return `Ok` without touching anything;
  * anything else: fall through to chown / set mode only. -/
def copyFileToMemfs (src : SrcEntry) (srcPath destScope : FsPath) (fs : Fs) :
    Outcome (Fs × List Event) :=
  match src with
  | .file content mode uid gid =>
    let destPath := destScope.join srcPath
    Outcome.bind (ensureParent fs destPath) fun fs =>
    Outcome.bind (ensureParent fs destPath) fun fs =>
    match lookupFs fs destPath with
    | none =>
        let fs := insertFs fs destPath (.file content 438 0 0)
        Outcome.bind (chownFs fs destPath uid gid) fun fs =>
        Outcome.bind (setPermissionsFs fs destPath mode) fun fs =>
        .ok (fs, [])
    | some destEntry =>
        match destEntry with
        | .dir _ _ _ =>
            match srcPath.fileName with
            | none => .panicked "unwrap on a none value"
            | some name =>
                let joined := destPath.join ⟨false, [name]⟩
                Outcome.bind (writeToHandle fs destPath content) fun fs =>
                Outcome.bind (chownFs fs joined uid gid) fun fs =>
                Outcome.bind (setPermissionsFs fs joined mode) fun fs =>
                .ok (fs, [])
        | .file _ _ _ _ =>
            Outcome.bind (writeToHandle fs destPath content) fun fs =>
            Outcome.bind (chownFs fs destPath uid gid) fun fs =>
            Outcome.bind (setPermissionsFs fs destPath mode) fun fs =>
            .ok (fs, [])
        | .symlink _ => .ok (fs, [.warnedSymlinkDest destPath])
        | .other _ _ _ =>
            Outcome.bind (chownFs fs destPath uid gid) fun fs =>
            Outcome.bind (setPermissionsFs fs destPath mode) fun fs =>
            .ok (fs, [])
  | _ => .error "open: source is not a regular file"

/-- Metadata snapshot (mode, uid, gid) of a source entry; a symlink
entry exposes no Unix metadata of its own in this model. -/
def srcMetadata : SrcEntry → Option (Nat × Nat × Nat)
  | .file _ m u g => some (m, u, g)
  | .dir m u g => some (m, u, g)
  | .otherKind m u g => some (m, u, g)
  | .symlink _ => none

/-- `copy_dir_to_memfs` (lib.rs:287-306): compute
`dest_path = destScope.join(srcPath)`, `create_dir_all` it, read the
source metadata, then set permissions and chown on the destination
path (in that order). -/
def copyDirToMemfs (srcfs : SrcFs) (srcPath destScope : FsPath) (fs : Fs) :
    Outcome Fs :=
  let destPath := destScope.join srcPath
  Outcome.bind (createDirAll fs destPath) fun fs =>
  match lookupSrc srcfs srcPath with
  | none => .error "metadata: no such path"
  | some e =>
    match srcMetadata e with
    | none => .error "metadata: no unix metadata"
    | some (m, u, g) =>
      Outcome.bind (setPermissionsFs fs destPath m) fun fs =>
      chownFs fs destPath u g

/-- Does the parent of `p` denote an existing directory (the root
always exists)? -/
def parentIsDir (fs : Fs) (p : FsPath) : Bool :=
  match p.parent with
  | none => true
  | some par =>
    par.components.isEmpty ||
      match lookupFs fs par with
      | some (.dir _ _ _) => true
      | _ => false

/-- `add_symlink_to_memfs` (lib.rs:308-321): compute
`dest_path = destScope.join(srcPath)`, read the source link target
(fails if the source is not a symlink), and create a destination
symlink with the identical target string.  The backend `symlink` call
fails if the destination already exists or its parent directory is
missing; no parent creation is performed here. -/
def addSymlinkToMemfs (srcfs : SrcFs) (srcPath destScope : FsPath) (fs : Fs) :
    Outcome Fs :=
  let destPath := destScope.join srcPath
  match lookupSrc srcfs srcPath with
  | some (.symlink target) =>
      match lookupFs fs destPath with
      | some _ => .error "symlink: destination already exists"
      | none =>
          if parentIsDir fs destPath then
            .ok (insertFs fs destPath (.symlink target))
          else
            .error "symlink: destination parent missing"
  | _ => .error "read link: not a symlink"

/-- One iteration of the `do_copy` dispatch loop (lib.rs:125-154):
`read_link` first — success routes to the symlink replicator; otherwise
`metadata` classifies the path as directory, regular file, or an
unknown kind, which is logged as an error and skipped without aborting.
A failing `metadata` propagates with `?`. -/
def doCopyStep (srcfs : SrcFs) (destScope : FsPath) (fs : Fs) (p : FsPath) :
    Outcome (Fs × List Event) :=
  match lookupSrc srcfs p with
  | some (.symlink _) =>
      Outcome.bind (addSymlinkToMemfs srcfs p destScope fs) fun fs =>
        .ok (fs, [])
  | some (.dir _ _ _) =>
      Outcome.bind (copyDirToMemfs srcfs p destScope fs) fun fs =>
        .ok (fs, [])
  | some (.file c m u g) => copyFileToMemfs (.file c m u g) p destScope fs
  | some (.otherKind _ _ _) => .ok (fs, [.errorLogged p])
  | none => .error "metadata: no such path"

/-- The `do_copy` loop over the ordered path set: strictly sequential,
aborting on the first error or panic, accumulating log events. -/
def doCopyLoop (srcfs : SrcFs) (destScope : FsPath) :
    Fs → List FsPath → Outcome (Fs × List Event)
  | fs, [] => .ok (fs, [])
  | fs, p :: rest =>
    match doCopyStep srcfs destScope fs p with
    | .ok (fs', evs) =>
        match doCopyLoop srcfs destScope fs' rest with
        | .ok (fs'', evs') => .ok (fs'', evs ++ evs')
        | .error e => .error e
        | .panicked m => .panicked m
    | .error e => .error e
    | .panicked m => .panicked m

/-- Prepend one log event to the event trace of an outcome. -/
def prependEvent (ev : Event) :
    Outcome (Fs × List Event) → Outcome (Fs × List Event)
  | .ok (fs, evs) => .ok (fs, ev :: evs)
  | .error e => .error e
  | .panicked m => .panicked m

/-- Does `q` denote an existing directory in `fs`? -/
def isDirAt (fs : Fs) (q : FsPath) : Bool :=
  match lookupFs fs q with
  | some (.dir _ _ _) => true
  | _ => false

theorem lookupFs_insertFs_self (fs : Fs) (p : FsPath) (e : Entry) :
    lookupFs (insertFs fs p e) p = some e := by
  induction fs with
  | nil => simp [insertFs, lookupFs]
  | cons hd tl ih =>
    obtain ⟨q, e'⟩ := hd
    by_cases h : q = p <;> simp [insertFs, lookupFs, h, ih]

theorem lookupFs_insertFs_ne (fs : Fs) (p q : FsPath) (e : Entry)
    (h : q ≠ p) : lookupFs (insertFs fs p e) q = lookupFs fs q := by
  induction fs with
  | nil => simp [insertFs, lookupFs, Ne.symm h]
  | cons hd tl ih =>
    obtain ⟨r, e'⟩ := hd
    by_cases hr : r = p
    · subst hr
      have hrq : ¬r = q := fun he => h he.symm
      simp [insertFs, lookupFs, hrq]
    · simp [insertFs, lookupFs, hr, ih]

theorem insertFs_insertFs (fs : Fs) (p : FsPath) (a b : Entry) :
    insertFs (insertFs fs p a) p b = insertFs fs p b := by
  induction fs with
  | nil => simp [insertFs]
  | cons hd tl ih =>
    obtain ⟨q, e'⟩ := hd
    by_cases h : q = p <;> simp [insertFs, h, ih]

theorem insertFs_eq_of_lookup (fs : Fs) (p : FsPath) (e : Entry)
    (h : lookupFs fs p = some e) : insertFs fs p e = fs := by
  induction fs with
  | nil => simp [lookupFs] at h
  | cons hd tl ih =>
    obtain ⟨q, e'⟩ := hd
    by_cases hq : q = p
    · subst hq
      simp [lookupFs] at h
      simp [insertFs, h]
    · simp [lookupFs, hq] at h
      simp [insertFs, hq, ih h]

theorem isDirAt_insertFs_dir (fs : Fs) (p q : FsPath) (m u g : Nat) :
    isDirAt fs q = true → isDirAt (insertFs fs p (.dir m u g)) q = true := by
  intro h
  by_cases hpq : q = p
  · subst hpq
    simp [isDirAt, lookupFs_insertFs_self]
  · simpa [isDirAt, lookupFs_insertFs_ne fs p q _ hpq] using h

theorem createDirsGo_preserves_isDirAt (l : List FsPath) (fs fs' : Fs)
    (q : FsPath) (h : createDirsGo fs l = .ok fs')
    (hq : isDirAt fs q = true) : isDirAt fs' q = true := by
  induction l generalizing fs with
  | nil =>
    simp [createDirsGo] at h
    exact h ▸ hq
  | cons hd tl ih =>
    rw [createDirsGo] at h
    cases hl : lookupFs fs hd with
    | none =>
      rw [hl] at h
      exact ih _ h (isDirAt_insertFs_dir fs hd q _ _ _ hq)
    | some e =>
      rw [hl] at h
      cases e with
      | dir m u g => exact ih _ h hq
      | file c m u g => simp at h
      | symlink t => simp at h
      | other m u g => simp at h

theorem createDirsGo_all_isDirAt (l : List FsPath) (fs fs' : Fs)
    (h : createDirsGo fs l = .ok fs') :
    ∀ q ∈ l, isDirAt fs' q = true := by
  induction l generalizing fs with
  | nil => intro q hq; simp at hq
  | cons hd tl ih =>
    intro q hq
    rw [createDirsGo] at h
    rcases List.mem_cons.mp hq with hq | hq
    · subst hq
      cases hl : lookupFs fs q with
      | none =>
        rw [hl] at h
        exact createDirsGo_preserves_isDirAt tl _ _ q h
          (by simp [isDirAt, lookupFs_insertFs_self])
      | some e =>
        rw [hl] at h
        cases e with
        | dir m u g =>
          exact createDirsGo_preserves_isDirAt tl _ _ q h (by simp [isDirAt, hl])
        | file c m u g => simp at h
        | symlink t => simp at h
        | other m u g => simp at h
    · cases hl : lookupFs fs hd with
      | none => rw [hl] at h; exact ih _ h q hq
      | some e =>
        rw [hl] at h
        cases e with
        | dir m u g => exact ih _ h q hq
        | file c m u g => simp at h
        | symlink t => simp at h
        | other m u g => simp at h

theorem createDirsGo_eq_of_all (l : List FsPath) (fs : Fs)
    (h : ∀ q ∈ l, isDirAt fs q = true) : createDirsGo fs l = .ok fs := by
  induction l with
  | nil => simp [createDirsGo]
  | cons hd tl ih =>
    have hd' := h hd (List.mem_cons_self hd tl)
    rw [createDirsGo]
    cases hl : lookupFs fs hd with
    | none => simp [isDirAt, hl] at hd'
    | some e =>
      cases e with
      | dir m u g => exact ih fun q hq => h q (List.mem_cons_of_mem hd hq)
      | file c m u g => simp [isDirAt, hl] at hd'
      | symlink t => simp [isDirAt, hl] at hd'
      | other m u g => simp [isDirAt, hl] at hd'

theorem lookupFs_createDirsGo_of_ne (l : List FsPath) (fs fs' : Fs)
    (p : FsPath) (h : createDirsGo fs l = .ok fs')
    (hne : ∀ q ∈ l, q ≠ p) : lookupFs fs' p = lookupFs fs p := by
  induction l generalizing fs with
  | nil => simp [createDirsGo] at h; rw [h]
  | cons hd tl ih =>
    rw [createDirsGo] at h
    cases hl : lookupFs fs hd with
    | none =>
      rw [hl] at h
      rw [ih _ h fun q hq => hne q (List.mem_cons_of_mem hd hq)]
      exact lookupFs_insertFs_ne fs hd p _
        (Ne.symm (hne hd (List.mem_cons_self hd tl)))
    | some e =>
      rw [hl] at h
      cases e with
      | dir m u g => exact ih _ h fun q hq => hne q (List.mem_cons_of_mem hd hq)
      | file c m u g => simp at h
      | symlink t => simp at h
      | other m u g => simp at h

theorem mem_prefixPathsAux_length (abs : Bool) (cs : List String)
    (q : FsPath) (h : q ∈ prefixPathsAux abs cs) :
    q.components.length ≤ cs.length := by
  induction cs generalizing q with
  | nil => simp [prefixPathsAux] at h
  | cons c rest ih =>
    rw [prefixPathsAux] at h
    rcases List.mem_cons.mp h with h | h
    · subst h; simp
    · rcases List.mem_map.mp h with ⟨q', hq', rfl⟩
      simpa using Nat.succ_le_succ (ih q' hq')

theorem parent_components_length (p par : FsPath)
    (h : p.parent = some par) :
    par.components.length + 1 = p.components.length := by
  rw [FsPath.parent] at h
  cases hc : p.components with
  | nil => rw [hc] at h; simp at h
  | cons c rest =>
    rw [hc] at h
    simp only [Option.some.injEq] at h
    subst h
    simp [hc]

theorem mem_dirChain_parent_ne (p par q : FsPath)
    (hpar : p.parent = some par) (hq : q ∈ dirChain par) : q ≠ p := by
  intro he
  have h1 := mem_prefixPathsAux_length par.absolute par.components q hq
  have h2 := parent_components_length p par hpar
  rw [he] at h1
  omega

theorem isDirAt_insertFs_ne (fs : Fs) (p q : FsPath) (e : Entry)
    (h : q ≠ p) : isDirAt (insertFs fs p e) q = isDirAt fs q := by
  simp [isDirAt, lookupFs_insertFs_ne fs p q e h]

theorem ensureParent_lookup (fs fs' : Fs) (p : FsPath)
    (h : ensureParent fs p = .ok fs') :
    lookupFs fs' p = lookupFs fs p := by
  cases hp : p.parent with
  | none =>
    simp only [ensureParent, hp, Outcome.ok.injEq] at h
    rw [h]
  | some par =>
    simp only [ensureParent, hp, createDirAll] at h
    exact lookupFs_createDirsGo_of_ne _ _ _ _ h
      (fun q hq => mem_dirChain_parent_ne p par q hp hq)

theorem ensureParent_idem (fs fs' : Fs) (p : FsPath)
    (h : ensureParent fs p = .ok fs') : ensureParent fs' p = .ok fs' := by
  cases hp : p.parent with
  | none => simp [ensureParent, hp]
  | some par =>
    simp only [ensureParent, hp, createDirAll] at h ⊢
    exact createDirsGo_eq_of_all _ _ (createDirsGo_all_isDirAt _ _ _ h)

theorem ensureParent_insert_dest (fs : Fs) (p : FsPath) (e : Entry)
    (h : ensureParent fs p = .ok fs) :
    ensureParent (insertFs fs p e) p = .ok (insertFs fs p e) := by
  cases hp : p.parent with
  | none => simp [ensureParent, hp]
  | some par =>
    simp only [ensureParent, hp, createDirAll] at h ⊢
    apply createDirsGo_eq_of_all
    intro q hq
    rw [isDirAt_insertFs_ne _ _ _ _ (mem_dirChain_parent_ne p par q hp hq)]
    exact createDirsGo_all_isDirAt _ _ _ h q hq


/-- C9: scope resolution of the four public copy operations is a pure
total function: an absent scope resolves to the root `/`, a scope not
starting with the root separator is prefixed with it, and an
already-rooted scope is returned unchanged; being a plain Lean
function, it performs no I/O and cannot fail. -/
theorem C9_scope_resolution_pure_total :
    resolveScope none = rootPath ∧
    (∀ p : FsPath, resolveScope (some p) =
      if p.absolute then p else ⟨true, p.components⟩) ∧
    (∀ p : FsPath, (resolveScope (some p)).absolute = true) := by
  refine ⟨rfl, fun p => rfl, fun p => ?_⟩
  cases h : p.absolute <;> simp [resolveScope, h]

/-- C1: for a single-file copy whose computed destination path does not
yet exist, a successful run takes the exclusive create-new branch and
leaves at the destination path a file whose byte content, Unix mode,
uid and gid all equal the source's. -/
theorem C1_fresh_destination_copy
    (content : List Nat) (mode uid gid : Nat) (srcPath destScope : FsPath)
    (fs fs' : Fs) (evs : List Event)
    (hnone : lookupFs fs (destScope.join srcPath) = none)
    (hrun : copyFileToMemfs (.file content mode uid gid) srcPath destScope fs
      = .ok (fs', evs)) :
    lookupFs fs' (destScope.join srcPath)
      = some (.file content mode uid gid) := by
  cases h1 : ensureParent fs (destScope.join srcPath) with
  | error e => simp [copyFileToMemfs, h1, Outcome.bind] at hrun
  | panicked m => simp [copyFileToMemfs, h1, Outcome.bind] at hrun
  | ok fsB =>
    cases h2 : ensureParent fsB (destScope.join srcPath) with
    | error e => simp [copyFileToMemfs, h1, h2, Outcome.bind] at hrun
    | panicked m => simp [copyFileToMemfs, h1, h2, Outcome.bind] at hrun
    | ok fsA =>
      have hB : lookupFs fsB (destScope.join srcPath) = none :=
        (ensureParent_lookup _ _ _ h1).trans hnone
      have hA : lookupFs fsA (destScope.join srcPath) = none :=
        (ensureParent_lookup _ _ _ h2).trans hB
      simp only [copyFileToMemfs, h1, h2, Outcome.bind, hA, chownFs,
        lookupFs_insertFs_self, insertFs_insertFs, setPermissionsFs,
        Outcome.ok.injEq, Prod.mk.injEq] at hrun
      obtain ⟨hfs, _⟩ := hrun
      rw [← hfs]
      exact lookupFs_insertFs_self _ _ _

/-- Witness for C1 at a concrete input: copying a fresh file `/a/b`
into an empty destination. -/
theorem C1_fresh_destination_copy_witness :
    lookupFs [] (FsPath.join rootPath ⟨true, ["a", "b"]⟩) = none ∧
    lookupFs [(⟨true, ["a"]⟩, .dir 493 0 0),
        (⟨true, ["a", "b"]⟩, .file [1, 2] 420 1000 1000)]
      (FsPath.join rootPath ⟨true, ["a", "b"]⟩)
      = some (.file [1, 2] 420 1000 1000) :=
  ⟨by decide,
   C1_fresh_destination_copy [1, 2] 420 1000 1000 ⟨true, ["a", "b"]⟩
     rootPath [] _ [] (by decide) (by decide)⟩

/-- C2 fails on the code: with destination `/a/b` already a directory,
the engine opens the directory itself with read+write and streams the
source bytes into that handle (the inner path `/a/b/b` is computed only
afterwards, and only for chown / set-permissions), so the copy errors
out instead of producing a file named after the source base name inside
the directory; nothing appears at `/a/b/b`. -/
theorem C2_dest_dir_branch_errors :
    copyFileToMemfs (.file [1] 420 1 1) ⟨true, ["a", "b"]⟩ rootPath
      [(⟨true, ["a", "b"]⟩, .dir 493 0 0)]
      = .error "write: handle has no byte stream" := by
  decide

/-- C3 fails on the code: the destination file is opened read+write
without truncation, so when the old content (`[0, 0]`) is longer than
the source content (`[1]`), the run succeeds but leaves `[1, 0]` — the
old tail survives — while mode/uid/gid are reset to the source's. -/
theorem C3_overwrite_keeps_longer_tail :
    copyFileToMemfs (.file [1] 420 1 1) ⟨true, ["a", "b"]⟩ rootPath
      [(⟨true, ["a"]⟩, .dir 493 0 0), (⟨true, ["a", "b"]⟩, .file [0, 0] 7 7 7)]
      = .ok ([(⟨true, ["a"]⟩, .dir 493 0 0),
              (⟨true, ["a", "b"]⟩, .file [1, 0] 420 1 1)], [])
      ∧ [1, 0] ≠ [1] := by
  decide

/-- C4: when the computed destination path is an existing symlink (and
the parent directory chain is already in place, as it must be for the
entry to exist), the file copy leaves the destination state entirely
unchanged, applies no metadata, logs a warning, and returns success. -/
theorem C4_dest_symlink_skipped
    (content : List Nat) (mode uid gid : Nat) (srcPath destScope : FsPath)
    (fs : Fs) (t : String)
    (hlink : lookupFs fs (destScope.join srcPath) = some (.symlink t))
    (hpar : ensureParent fs (destScope.join srcPath) = .ok fs) :
    copyFileToMemfs (.file content mode uid gid) srcPath destScope fs
      = .ok (fs, [.warnedSymlinkDest (destScope.join srcPath)]) := by
  simp [copyFileToMemfs, hpar, Outcome.bind, hlink]

/-- Witness for C4: destination `/a/b` is a symlink; the copy returns
the unchanged state plus a warning. -/
theorem C4_dest_symlink_skipped_witness :
    lookupFs [(⟨true, ["a"]⟩, .dir 493 0 0), (⟨true, ["a", "b"]⟩, .symlink "x")]
        (FsPath.join rootPath ⟨true, ["a", "b"]⟩) = some (.symlink "x") ∧
    copyFileToMemfs (.file [1] 420 1 1) ⟨true, ["a", "b"]⟩ rootPath
        [(⟨true, ["a"]⟩, .dir 493 0 0), (⟨true, ["a", "b"]⟩, .symlink "x")]
      = .ok ([(⟨true, ["a"]⟩, .dir 493 0 0),
              (⟨true, ["a", "b"]⟩, .symlink "x")],
             [.warnedSymlinkDest (FsPath.join rootPath ⟨true, ["a", "b"]⟩)]) :=
  ⟨by decide,
   C4_dest_symlink_skipped [1] 420 1 1 ⟨true, ["a", "b"]⟩ rootPath
     [(⟨true, ["a"]⟩, .dir 493 0 0), (⟨true, ["a", "b"]⟩, .symlink "x")] "x"
     (by decide) (by decide)⟩

/-- C5: joining the destination scope with an absolute discovered path
yields the discovered path itself, so every replicator (file, directory
and symlink alike) behaves exactly as with the default root scope — a
non-root destination scope is discarded. -/
theorem C5_absolute_path_discards_dest_scope
    (destScope p : FsPath) (habs : p.absolute = true) :
    FsPath.join destScope p = p ∧
    (∀ (src : SrcEntry) (fs : Fs),
      copyFileToMemfs src p destScope fs = copyFileToMemfs src p rootPath fs) ∧
    (∀ (srcfs : SrcFs) (fs : Fs),
      copyDirToMemfs srcfs p destScope fs = copyDirToMemfs srcfs p rootPath fs) ∧
    (∀ (srcfs : SrcFs) (fs : Fs),
      addSymlinkToMemfs srcfs p destScope fs
        = addSymlinkToMemfs srcfs p rootPath fs) := by
  have hj : ∀ base : FsPath, FsPath.join base p = p := by
    intro base
    simp [FsPath.join, habs]
  refine ⟨hj destScope, fun src fs => ?_, fun srcfs fs => ?_, fun srcfs fs => ?_⟩
  · cases src <;> simp [copyFileToMemfs, hj]
  · simp [copyDirToMemfs, hj]
  · simp [addSymlinkToMemfs, hj]

/-- Witness for C5: the scope `/scope` is discarded for the absolute
path `/a`. -/
theorem C5_absolute_path_discards_dest_scope_witness :
    FsPath.join ⟨true, ["scope"]⟩ ⟨true, ["a"]⟩ = ⟨true, ["a"]⟩ :=
  (C5_absolute_path_discards_dest_scope ⟨true, ["scope"]⟩ ⟨true, ["a"]⟩ rfl).1

/-- C7: replicating a symlink never dereferences it — whenever the
symlink replicator succeeds, the destination entry at the computed path
is a symlink whose target string equals the source link's target
string exactly. -/
theorem C7_symlink_target_preserved
    (srcfs : SrcFs) (fs fs' : Fs) (srcPath destScope : FsPath) (t : String)
    (hsrc : lookupSrc srcfs srcPath = some (.symlink t))
    (hrun : addSymlinkToMemfs srcfs srcPath destScope fs = .ok fs') :
    lookupFs fs' (destScope.join srcPath) = some (.symlink t) := by
  simp only [addSymlinkToMemfs, hsrc] at hrun
  cases hdest : lookupFs fs (destScope.join srcPath) with
  | some e =>
    rw [hdest] at hrun
    simp at hrun
  | none =>
    rw [hdest] at hrun
    by_cases hp : parentIsDir fs (destScope.join srcPath) = true
    · simp only [hp, if_true, Outcome.ok.injEq] at hrun
      rw [← hrun]
      exact lookupFs_insertFs_self _ _ _
    · simp [hp] at hrun

/-- Witness for C7: replicating `/a/link -> b.txt`. -/
theorem C7_symlink_target_preserved_witness :
    lookupFs [(⟨true, ["a"]⟩, .dir 493 0 0),
        (⟨true, ["a", "link"]⟩, .symlink "b.txt")]
      (FsPath.join rootPath ⟨true, ["a", "link"]⟩) = some (.symlink "b.txt") :=
  C7_symlink_target_preserved [(⟨true, ["a", "link"]⟩, .symlink "b.txt")]
    [(⟨true, ["a"]⟩, .dir 493 0 0)] _ ⟨true, ["a", "link"]⟩ rootPath "b.txt"
    (by decide) (by decide)

/-- C6: a discovered path of unsupported type is logged as an error and
skipped — the dispatch step succeeds with the destination unchanged and
an error event, and the loop over the remaining paths proceeds exactly
as if the entry were absent, so the whole operation still completes for
all other entries. -/
theorem C6_unknown_type_logged_and_skipped
    (srcfs : SrcFs) (destScope : FsPath) (fs : Fs) (p : FsPath)
    (rest : List FsPath) (m u g : Nat)
    (hother : lookupSrc srcfs p = some (.otherKind m u g)) :
    doCopyStep srcfs destScope fs p = .ok (fs, [.errorLogged p]) ∧
    doCopyLoop srcfs destScope fs (p :: rest)
      = prependEvent (.errorLogged p) (doCopyLoop srcfs destScope fs rest) := by
  constructor
  · simp [doCopyStep, hother]
  · simp only [doCopyLoop, doCopyStep, hother]
    cases hrec : doCopyLoop srcfs destScope fs rest with
    | ok pr =>
      obtain ⟨fs', evs⟩ := pr
      simp [prependEvent]
    | error e => simp [prependEvent]
    | panicked m2 => simp [prependEvent]

/-- Witness for C6: a socket-like entry at `/a` followed by a regular
file `/a/b`; the socket is logged and skipped, the file still lands. -/
theorem C6_unknown_type_logged_and_skipped_witness :
    doCopyStep [(⟨true, ["a"]⟩, .otherKind 1 2 3),
        (⟨true, ["a", "b"]⟩, .file [9] 420 5 5)] rootPath [] ⟨true, ["a"]⟩
      = .ok ([], [.errorLogged ⟨true, ["a"]⟩]) ∧
    doCopyLoop [(⟨true, ["a"]⟩, .otherKind 1 2 3),
        (⟨true, ["a", "b"]⟩, .file [9] 420 5 5)] rootPath []
        [⟨true, ["a"]⟩, ⟨true, ["a", "b"]⟩]
      = prependEvent (.errorLogged ⟨true, ["a"]⟩)
          (doCopyLoop [(⟨true, ["a"]⟩, .otherKind 1 2 3),
            (⟨true, ["a", "b"]⟩, .file [9] 420 5 5)] rootPath []
            [⟨true, ["a", "b"]⟩]) :=
  C6_unknown_type_logged_and_skipped _ rootPath [] ⟨true, ["a"]⟩
    [⟨true, ["a", "b"]⟩] 1 2 3 (by decide)

/-- C10: the destination-exists-as-directory branch extracts the source
base name with `file_name().unwrap()`; on a source file path with no
final component (the root `/`) the operation aborts by panic, not by
returning an error value. -/
theorem C10_missing_file_name_panics
    (content : List Nat) (mode uid gid : Nat) (p destScope : FsPath) (fs : Fs)
    (m u g : Nat)
    (habs : p.absolute = true) (hname : p.fileName = none)
    (hdir : lookupFs fs p = some (.dir m u g)) :
    copyFileToMemfs (.file content mode uid gid) p destScope fs
      = .panicked "unwrap on a none value" := by
  have hcomp : p.components = [] := by
    cases hc : p.components with
    | nil => rfl
    | cons a l =>
      rw [FsPath.fileName, hc] at hname
      simp [List.getLast?_eq_none_iff] at hname
  have hj : FsPath.join destScope p = p := by
    simp [FsPath.join, habs]
  have hpar : p.parent = none := by
    simp [FsPath.parent, hcomp]
  simp [copyFileToMemfs, hj, ensureParent, hpar, Outcome.bind, hdir,
    FsPath.fileName, hcomp]

/-- Witness for C10: the root path as a source file, with the
destination root an existing directory, panics. -/
theorem C10_missing_file_name_panics_witness :
    copyFileToMemfs (.file [1] 420 1 1) rootPath rootPath
      [(rootPath, .dir 493 0 0)] = .panicked "unwrap on a none value" :=
  C10_missing_file_name_panics [1] 420 1 1 rootPath rootPath
    [(rootPath, .dir 493 0 0)] 493 0 0 rfl rfl (by decide)

/-- C8: the file copy is idempotent — whenever a run from an unchanged
source succeeds, running it again on the resulting destination state
succeeds and leaves the destination content and metadata identical. -/
theorem C8_copy_twice_idempotent
    (src : SrcEntry) (srcPath destScope : FsPath) (fs fs1 : Fs)
    (evs : List Event)
    (hrun : copyFileToMemfs src srcPath destScope fs = .ok (fs1, evs)) :
    ∃ evs2, copyFileToMemfs src srcPath destScope fs1 = .ok (fs1, evs2) := by
  cases src with
  | dir m u g => simp [copyFileToMemfs] at hrun
  | symlink t => simp [copyFileToMemfs] at hrun
  | otherKind m u g => simp [copyFileToMemfs] at hrun
  | file content mode uid gid =>
    cases h1 : ensureParent fs (destScope.join srcPath) with
    | error e => simp [copyFileToMemfs, h1, Outcome.bind] at hrun
    | panicked m => simp [copyFileToMemfs, h1, Outcome.bind] at hrun
    | ok fsB =>
      cases h2 : ensureParent fsB (destScope.join srcPath) with
      | error e => simp [copyFileToMemfs, h1, h2, Outcome.bind] at hrun
      | panicked m => simp [copyFileToMemfs, h1, h2, Outcome.bind] at hrun
      | ok fsA =>
        have hEP : ensureParent fsB (destScope.join srcPath) = .ok fsB :=
          ensureParent_idem _ _ _ h1
        have hABeq : Outcome.ok (α := Fs) fsA = .ok fsB := h2.symm.trans hEP
        have hAB : fsA = fsB := by injection hABeq
        subst hAB
        cases hdest : lookupFs fsA (destScope.join srcPath) with
        | none =>
          simp only [copyFileToMemfs, h1, h2, Outcome.bind, hdest, chownFs,
            lookupFs_insertFs_self, insertFs_insertFs, setPermissionsFs,
            Outcome.ok.injEq, Prod.mk.injEq] at hrun
          obtain ⟨hfs, _⟩ := hrun
          refine ⟨[], ?_⟩
          rw [← hfs]
          have hw := ensureParent_insert_dest fsA (destScope.join srcPath)
            (.file content mode uid gid) hEP
          have hlook := lookupFs_insertFs_self fsA (destScope.join srcPath)
            (.file content mode uid gid)
          simp [copyFileToMemfs, hw, Outcome.bind, hlook, writeToHandle,
            chownFs, setPermissionsFs, List.drop_length, insertFs_insertFs]
        | some e =>
          cases e with
          | dir dm du dg =>
            cases hname : srcPath.fileName with
            | none =>
              simp [copyFileToMemfs, h1, h2, Outcome.bind, hdest, hname]
                at hrun
            | some name =>
              simp [copyFileToMemfs, h1, h2, Outcome.bind, hdest, hname,
                writeToHandle] at hrun
          | file c' m' u' g' =>
            simp only [copyFileToMemfs, h1, h2, Outcome.bind, hdest,
              writeToHandle, chownFs, setPermissionsFs,
              lookupFs_insertFs_self, insertFs_insertFs,
              Outcome.ok.injEq, Prod.mk.injEq] at hrun
            obtain ⟨hfs, _⟩ := hrun
            refine ⟨[], ?_⟩
            rw [← hfs]
            have hw := ensureParent_insert_dest fsA (destScope.join srcPath)
              (.file (content ++ c'.drop content.length) mode uid gid) hEP
            have hlook := lookupFs_insertFs_self fsA (destScope.join srcPath)
              (.file (content ++ c'.drop content.length) mode uid gid)
            simp [copyFileToMemfs, hw, Outcome.bind, hlook, writeToHandle,
              chownFs, setPermissionsFs, insertFs_insertFs, List.drop_left]
          | symlink t =>
            simp only [copyFileToMemfs, h1, h2, Outcome.bind, hdest,
              Outcome.ok.injEq, Prod.mk.injEq] at hrun
            obtain ⟨hfs, _⟩ := hrun
            refine ⟨[.warnedSymlinkDest (destScope.join srcPath)], ?_⟩
            rw [← hfs]
            simp [copyFileToMemfs, hEP, Outcome.bind, hdest]
          | other m' u' g' =>
            simp only [copyFileToMemfs, h1, h2, Outcome.bind, hdest, chownFs,
              setPermissionsFs, lookupFs_insertFs_self, insertFs_insertFs,
              Outcome.ok.injEq, Prod.mk.injEq] at hrun
            obtain ⟨hfs, _⟩ := hrun
            refine ⟨[], ?_⟩
            rw [← hfs]
            have hw := ensureParent_insert_dest fsA (destScope.join srcPath)
              (.other mode uid gid) hEP
            have hlook := lookupFs_insertFs_self fsA (destScope.join srcPath)
              (.other mode uid gid)
            simp [copyFileToMemfs, hw, Outcome.bind, hlook, chownFs,
              setPermissionsFs, insertFs_insertFs]

/-- Witness for C8: the second run over the state produced by a first
run of the same copy reproduces that state exactly. -/
theorem C8_copy_twice_idempotent_witness :
    ∃ evs2, copyFileToMemfs (.file [1, 2] 420 1000 1000) ⟨true, ["a", "b"]⟩
        rootPath [(⟨true, ["a"]⟩, .dir 493 0 0),
          (⟨true, ["a", "b"]⟩, .file [1, 2] 420 1000 1000)]
      = .ok ([(⟨true, ["a"]⟩, .dir 493 0 0),
          (⟨true, ["a", "b"]⟩, .file [1, 2] 420 1000 1000)], evs2) :=
  C8_copy_twice_idempotent (.file [1, 2] 420 1000 1000) ⟨true, ["a", "b"]⟩
    rootPath [] _ [] (by decide)
